import Mathlib

/-!
Verification development for the `npminit` project-scaffolding wizard.

The Go program is a Bubble Tea (Elm-architecture) terminal wizard: a `Model`
value is folded over a stream of messages by `Model.Update`, each step
returning the next model and a command; commands run asynchronously and feed
completion messages back into the loop.  This file shallowly embeds the
state machine (`Model`, `update`), the pure parts of the helper components
(`extraDependencies`, the install sequencer, `severityStatus`, `runAudit`),
and an explicit-state model of the filesystem effects of `setupProject` and
`extraDependencies`.

Conventions of the embedding:
* Go slices become `List`; in-place index assignment becomes `updateAt`.
* The `textinput`, `spinner` and `stopwatch` sub-models are display-only
  library components with no influence on the wizard logic, so they are not
  carried in the embedded `Model`; the project-name text is threaded where
  needed as an explicit argument.
* Terminal styling (`lipgloss.Render`) wraps a label in colour escape codes;
  the embedding keeps the label text and drops the colouring, which is
  display-only.
* Filesystem and process effects are embedded with explicit state passing:
  a filesystem value is a list of directory paths plus an association list
  of file contents (later writes are consed in front, so lookup sees the
  most recent write), and an external command invocation is summarised by
  an `ExecResult` record carrying the captured streams and exit status.
-/

namespace Npminit

/-- `Dependency` record from `main.go`. -/
structure Dependency where
  name          : String
  selected      : Bool
  devDependency : Bool
  installing    : Bool := false
  installed     : Bool := false
deriving DecidableEq, Repr

/-- `PageNumber` enum from `main.go` (`Page1View` = name entry,
`Page2View` = dependency selection, `Page3View` = installing,
`Page4View` = audit pending, `Page5View` = complete). -/
inductive PageNumber where
  | Page1View | Page2View | Page3View | Page4View | Page5View
deriving DecidableEq, Repr

export PageNumber (Page1View Page2View Page3View Page4View Page5View)

/-- `metadata.vulnerabilities` counts of `npmAuditJSON`. -/
structure VulnCounts where
  info     : Int := 0
  low      : Int := 0
  moderate : Int := 0
  high     : Int := 0
  critical : Int := 0
  total    : Int := 0
deriving DecidableEq, Repr

/-- `metadata.dependencies` counts of `npmAuditJSON`. -/
structure DepCounts where
  prod         : Int := 0
  dev          : Int := 0
  optional     : Int := 0
  peer         : Int := 0
  peerOptional : Int := 0
  total        : Int := 0
deriving DecidableEq, Repr

/-- `metadata` object of `npmAuditJSON`. -/
structure AuditMetadata where
  vulnerabilities : VulnCounts := {}
  dependencies    : DepCounts := {}
deriving DecidableEq, Repr

/-- The structured audit document (`npmAuditJSON` in the source). -/
structure npmAuditJSON where
  metadata : AuditMetadata := {}
deriving DecidableEq, Repr

/-- The wizard model (`Model` in `main.go`), restricted to the fields the
wizard logic reads and writes; the `textinput`, `spinner` and `stopwatch`
display components are omitted (see the header comment). -/
structure Model where
  view         : PageNumber
  dependencies : List Dependency
  audit        : npmAuditJSON := {}
  projectPath  : String := ""
  installCount : Nat := 0
  cursor       : Nat := 0
  error        : String := ""
deriving DecidableEq, Repr

/-- Seed dependency list from `initialModel`. -/
def seedDependencies : List Dependency :=
  [ { name := "typescript",  selected := true, devDependency := true },
    { name := "react",       selected := true, devDependency := false },
    { name := "kysely",      selected := true, devDependency := false },
    { name := "esbuild",     selected := true, devDependency := true },
    { name := "tailwindcss", selected := true, devDependency := true },
    { name := "nodemon",     selected := true, devDependency := true },
    { name := "dotenv",      selected := true, devDependency := true } ]

/-- `initialModel` from `main.go`: page 1, seed dependencies, zero counters. -/
def initialModel : Model :=
  { view := Page1View, dependencies := seedDependencies }

/-- The implied dependencies appended by `extraDependencies` for one selected
entry, keyed by its name (`react` implies five lint/type packages,
`kysely` implies `@types/node`, everything else implies none). -/
def impliedDeps (name : String) : List Dependency :=
  if name = "react" then
    [ { name := "@types/react", selected := true, devDependency := true },
      { name := "@types/react-dom", selected := true, devDependency := true },
      { name := "eslint-plugin-react", selected := true, devDependency := true },
      { name := "@typescript-eslint/eslint-plugin", selected := true, devDependency := true },
      { name := "@typescript-eslint/parser", selected := true, devDependency := true } ]
  else if name = "kysely" then
    [ { name := "@types/node", selected := true, devDependency := true } ]
  else []

/-- The list of extra `Dependency` records accumulated by the loop in
`extraDependencies`: for each selected entry, in list order, append its
implied dependencies (the template-copy side effects of the same loop are
modelled separately in `extraDependenciesFS`). -/
def extraDepsList : List Dependency → List Dependency
  | [] => []
  | d :: ds => (if d.selected then impliedDeps d.name else []) ++ extraDepsList ds

/-- `severityStatus` from the source: first nonzero count in the order
critical, high, moderate, low, info decides the label; all-zero gives the
empty string.  The source wraps each label in a coloured `lipgloss` render
and a `Sprintf("%v ", _)`, so each label carries a trailing space; the
colour escape codes are display-only and dropped here. -/
def severityStatus (audit : npmAuditJSON) : String :=
  if audit.metadata.vulnerabilities.critical > 0 then "Severity: Critical "
  else if audit.metadata.vulnerabilities.high > 0 then "Severity: High "
  else if audit.metadata.vulnerabilities.moderate > 0 then "Severity: Moderate "
  else if audit.metadata.vulnerabilities.low > 0 then "Severity: Low "
  else if audit.metadata.vulnerabilities.info > 0 then "Severity: Info "
  else ""

instance : Inhabited Dependency :=
  ⟨{ name := "", selected := false, devDependency := false }⟩

/-- In-place assignment `l[i] = f l[i]` on a Go slice, as a pure list update
(out-of-range indices leave the list unchanged; the Go program only indexes
in range). -/
def updateAt (f : Dependency → Dependency) : List Dependency → Nat → List Dependency
  | [], _ => []
  | d :: ds, 0 => f d :: ds
  | d :: ds, n + 1 => d :: updateAt f ds n

/-- The scan condition of the `InstallAllMsg` loop:
`selected && !installed && !installing`. -/
def eligible (d : Dependency) : Bool :=
  d.selected && !d.installed && !d.installing

/-- Index of the first entry the `InstallAllMsg` loop acts on: the first
entry with `selected=true, installed=false, installing=false`. -/
def findEligible : List Dependency → Option Nat
  | [] => none
  | d :: ds => if eligible d then some 0 else (findEligible ds).map (· + 1)

/-- Key events relevant to the wizard: the three quit bindings
(Esc/Ctrl+C/Ctrl+D) are collapsed into `esc` since `Model.Update` treats
them identically; `toggle` stands for Space/Left/Right; `other` is any
remaining key. -/
inductive KeyEv where
  | esc | toggle | up | down | enter | other
deriving DecidableEq, Repr

/-- The message types dispatched through `Model.Update`.  `extraDepsMsg`
carries the list of extra dependencies computed by `extraDependencies` at
dispatch time (the `ExtraDepsMessage` payload). -/
inductive Ev where
  | key (k : KeyEv)
  | setupMsg (projectPath : String)
  | extraDepsMsg (dependencies : List Dependency)
  | installAllMsg
  | onInstalledMsg (i : Nat)
  | auditMsg (a : npmAuditJSON)
  | errorMsg (e : String)

/-- Commands returned by `Model.Update`.  `installAllMsgCmd` is the closure
that immediately emits `InstallAllMsg` (the `tea.Sequence` after
`ExtraDepsMessage` also starts the stopwatch first; the stopwatch is
display-only).  `quit` is `tea.Quit`, possibly sequenced after a stopwatch
stop.  `textinputCmd` is whatever command the text-input component returns. -/
inductive Cmd where
  | none | quit
  | setupTask
  | extraTask
  | installAllMsgCmd
  | installTask (i : Nat)
  | auditTask
  | textinputCmd
deriving DecidableEq, Repr

/-- Shallow embedding of `Model.Update` from `main.go`: one step of the
event loop, returning the next model and the command it dispatches.  The
default branch (spinner/stopwatch ticks) changes none of the embedded
fields and is omitted. -/
def update (m : Model) (e : Ev) : Model × Cmd :=
  match e with
  | .key k =>
    if k = .esc then (m, .quit)
    else if m.view = Page1View then
      if k = .enter then (m, .setupTask)
      else (m, .textinputCmd)
    else if m.view = Page2View then
      match k with
      | .toggle =>
        ({ m with dependencies :=
             updateAt (fun d => { d with selected := !d.selected }) m.dependencies m.cursor },
         .none)
      | .up =>
        ({ m with cursor := if m.cursor > 0 then m.cursor - 1 else m.cursor }, .none)
      | .down =>
        ({ m with cursor :=
             if m.cursor < m.dependencies.length - 1 then m.cursor + 1 else m.cursor },
         .none)
      | .enter => ({ m with view := Page3View }, .extraTask)
      | _ => (m, .none)
    else (m, .none)
  | .setupMsg p => ({ m with projectPath := p, view := Page2View }, .none)
  | .extraDepsMsg deps =>
    ({ m with dependencies := m.dependencies ++ deps }, .installAllMsgCmd)
  | .installAllMsg =>
    match findEligible m.dependencies with
    | some i =>
      ({ m with dependencies :=
           updateAt (fun d => { d with installing := true }) m.dependencies i },
       .installTask i)
    | none => ({ m with view := Page4View }, .auditTask)
  | .onInstalledMsg i =>
    ({ m with
       dependencies :=
         updateAt (fun d => { d with installing := false, installed := true }) m.dependencies i,
       installCount := m.installCount + 1 },
     .installAllMsgCmd)
  | .auditMsg a => ({ m with audit := a, view := Page5View }, .quit)
  | .errorMsg e => ({ m with error := e }, .quit)

/-- The install-sequencer loop under the all-installs-succeed assumption:
deliver `InstallAllMsg`; if it dispatches an install for index `i`, the
install succeeds and delivers `OnInstalledMsg i` (whose handler re-emits
`InstallAllMsg`), and the loop continues; otherwise the sequencer has
transitioned to the audit page and the loop stops.  Fuel bounds the number
of rounds; any fuel above the number of eligible entries reaches the
stopping state. -/
def runInstall : Nat → Model → Model
  | 0, m => m
  | fuel + 1, m =>
    match update m .installAllMsg with
    | (m1, .installTask i) => runInstall fuel (update m1 (.onInstalledMsg i)).1
    | (m1, _) => m1

/-! ### List lemmas for `updateAt`, `findEligible` and `countP` -/

theorem updateAt_length (f : Dependency → Dependency) :
    ∀ (l : List Dependency) (i : Nat), (updateAt f l i).length = l.length := by
  intro l
  induction l with
  | nil => intro i; rfl
  | cons d ds ih =>
    intro i
    cases i with
    | zero => rfl
    | succ n => simpa [updateAt] using ih n

theorem mem_updateAt {f : Dependency → Dependency} {q : Dependency} :
    ∀ {l : List Dependency} {i : Nat} {d : Dependency},
      d ∈ updateAt f l i → d ∈ l ∨ (i < l.length ∧ d = f (l.getD i q)) := by
  intro l
  induction l with
  | nil => intro i d h; simp [updateAt] at h
  | cons a as ih =>
    intro i d h
    cases i with
    | zero =>
      rcases (List.mem_cons.mp h) with h1 | h1
      · exact Or.inr ⟨by simp, h1⟩
      · exact Or.inl (List.mem_cons_of_mem a h1)
    | succ n =>
      rcases (List.mem_cons.mp h) with h1 | h1
      · exact Or.inl (h1 ▸ List.mem_cons_self a as)
      · rcases ih h1 with h2 | ⟨hlt, hd⟩
        · exact Or.inl (List.mem_cons_of_mem a h2)
        · exact Or.inr ⟨by simpa using Nat.succ_lt_succ hlt, by simpa using hd⟩

theorem updateAt_updateAt (f g : Dependency → Dependency) :
    ∀ (l : List Dependency) (i : Nat),
      updateAt f (updateAt g l i) i = updateAt (fun d => f (g d)) l i := by
  intro l
  induction l with
  | nil => intro i; rfl
  | cons d ds ih =>
    intro i
    cases i with
    | zero => rfl
    | succ n => simp [updateAt, ih n]

theorem getD_updateAt_self {f : Dependency → Dependency} {q : Dependency} :
    ∀ {l : List Dependency} {i : Nat}, i < l.length →
      (updateAt f l i).getD i q = f (l.getD i q) := by
  intro l
  induction l with
  | nil => intro i h; simp at h
  | cons d ds ih =>
    intro i h
    cases i with
    | zero => rfl
    | succ n =>
      simp only [List.length_cons, Nat.succ_lt_succ_iff] at h
      simpa [updateAt] using ih h

theorem getD_updateAt_ne {f : Dependency → Dependency} {q : Dependency} :
    ∀ {l : List Dependency} {i j : Nat}, j ≠ i →
      (updateAt f l i).getD j q = l.getD j q := by
  intro l
  induction l with
  | nil => intro i j _; simp [updateAt]
  | cons d ds ih =>
    intro i j hne
    cases i with
    | zero =>
      cases j with
      | zero => exact absurd rfl hne
      | succ k => rfl
    | succ n =>
      cases j with
      | zero => rfl
      | succ k =>
        have : k ≠ n := fun h => hne (by omega)
        simpa [updateAt] using ih this

theorem getD_mem {q : Dependency} :
    ∀ {l : List Dependency} {i : Nat}, i < l.length → l.getD i q ∈ l := by
  intro l
  induction l with
  | nil => intro i h; simp at h
  | cons d ds ih =>
    intro i h
    cases i with
    | zero => exact List.mem_cons_self d ds
    | succ n =>
      simp only [List.length_cons, Nat.succ_lt_succ_iff] at h
      exact List.mem_cons_of_mem d (ih h)

theorem countP_updateAt (p : Dependency → Bool) (f : Dependency → Dependency)
    {q : Dependency} :
    ∀ (l : List Dependency) (i : Nat), i < l.length →
      (updateAt f l i).countP p + (if p (l.getD i q) then 1 else 0)
        = l.countP p + (if p (f (l.getD i q)) then 1 else 0) := by
  intro l
  induction l with
  | nil => intro i h; simp at h
  | cons d ds ih =>
    intro i h
    cases i with
    | zero =>
      simp only [updateAt, List.getD_cons_zero, List.countP_cons]
      by_cases h1 : p d
      · by_cases h2 : p (f d)
        · simp [h1, h2]
        · simp [h1, h2]
      · by_cases h2 : p (f d)
        · simp [h1, h2]
        · simp [h1, h2]
    | succ n =>
      simp only [List.length_cons, Nat.succ_lt_succ_iff] at h
      have := ih n h
      simp only [updateAt, List.getD_cons_succ, List.countP_cons]
      by_cases h1 : p d
      · omega
      · omega

theorem countP_updateAt_le (p : Dependency → Bool) (f : Dependency → Dependency) :
    ∀ (l : List Dependency) (i : Nat),
      (updateAt f l i).countP p ≤ l.countP p + 1 := by
  intro l
  induction l with
  | nil => intro i; simp [updateAt]
  | cons d ds ih =>
    intro i
    cases i with
    | zero =>
      simp only [updateAt, List.countP_cons]
      by_cases h1 : p d
      · by_cases h2 : p (f d)
        · simp [h1, h2]
        · simp [h1, h2]; omega
      · by_cases h2 : p (f d)
        · simp [h1, h2]
        · simp [h1, h2]
    | succ n =>
      have := ih n
      simp only [updateAt, List.countP_cons]
      by_cases h1 : p d <;> simp [h1] <;> omega

theorem countP_updateAt_of_pres (p : Dependency → Bool) (f : Dependency → Dependency)
    (hpres : ∀ d, p (f d) = p d) :
    ∀ (l : List Dependency) (i : Nat), (updateAt f l i).countP p = l.countP p := by
  intro l
  induction l with
  | nil => intro i; rfl
  | cons d ds ih =>
    intro i
    cases i with
    | zero => simp [updateAt, List.countP_cons, hpres d]
    | succ n => simp [updateAt, List.countP_cons, ih n]

theorem findEligible_none :
    ∀ {l : List Dependency}, findEligible l = none → l.countP eligible = 0 := by
  intro l
  induction l with
  | nil => intro _; rfl
  | cons d ds ih =>
    intro h
    simp only [findEligible] at h
    by_cases hd : eligible d
    · rw [if_pos hd] at h; exact absurd h (by simp)
    · rw [if_neg hd] at h
      rw [List.countP_cons, if_neg hd, ih (Option.map_eq_none.mp h)]

theorem findEligible_some {q : Dependency} :
    ∀ {l : List Dependency} {i : Nat}, findEligible l = some i →
      i < l.length ∧ eligible (l.getD i q) = true ∧
        ∀ j, j < i → eligible (l.getD j q) = false := by
  intro l
  induction l with
  | nil => intro i h; simp [findEligible] at h
  | cons d ds ih =>
    intro i h
    simp only [findEligible] at h
    by_cases hd : eligible d
    · rw [if_pos hd] at h
      cases h
      exact ⟨by simp, by simpa using hd, fun j hj => absurd hj (by omega)⟩
    · rw [if_neg hd] at h
      cases hfe : findEligible ds with
      | none => rw [hfe] at h; simp at h
      | some n =>
        rw [hfe] at h
        simp only [Option.map_some', Option.some.injEq] at h
        rcases ih hfe with ⟨h1, h2, h3⟩
        subst h
        refine ⟨by simpa using Nat.succ_lt_succ h1, by simpa using h2, ?_⟩
        intro j hj
        cases j with
        | zero => simpa using hd
        | succ k => simpa using h3 k (by omega)

theorem findEligible_some_countP :
    ∀ {l : List Dependency} {i : Nat}, findEligible l = some i →
      (updateAt (fun d => { d with installing := false, installed := true }) l i).countP
          eligible + 1 = l.countP eligible := by
  intro l
  induction l with
  | nil => intro i h; simp [findEligible] at h
  | cons d ds ih =>
    intro i h
    simp only [findEligible] at h
    by_cases hd : eligible d
    · rw [if_pos hd] at h
      cases h
      have hne : eligible { d with installing := false, installed := true } = false := by
        simp [eligible]
      rw [updateAt, List.countP_cons, List.countP_cons, if_neg (by simp [hne]), if_pos hd]
    · rw [if_neg hd] at h
      cases hfe : findEligible ds with
      | none => rw [hfe] at h; simp at h
      | some n =>
        rw [hfe] at h
        simp only [Option.map_some', Option.some.injEq] at h
        subst h
        have := ih hfe
        rw [updateAt, List.countP_cons, List.countP_cons]
        by_cases h1 : eligible d
        · rw [if_pos h1]; omega
        · rw [if_neg h1]; omega

/-! ### The install sequencer -/

theorem runInstall_stop {m : Model} (h : findEligible m.dependencies = none)
    (fuel : Nat) : runInstall (fuel + 1) m = { m with view := Page4View } := by
  simp [runInstall, update, h]

theorem runInstall_round {m : Model} {i : Nat}
    (h : findEligible m.dependencies = some i) (fuel : Nat) :
    runInstall (fuel + 1) m =
      runInstall fuel
        { m with
          dependencies :=
            updateAt (fun d => { d with installing := false, installed := true })
              m.dependencies i,
          installCount := m.installCount + 1 } := by
  simp only [runInstall, update, h]
  rw [updateAt_updateAt]

theorem runInstall_spec :
    ∀ (fuel : Nat) (m : Model), m.dependencies.countP eligible < fuel →
      (runInstall fuel m).view = Page4View ∧
      (runInstall fuel m).installCount = m.installCount + m.dependencies.countP eligible := by
  intro fuel
  induction fuel with
  | zero => intro m h; exact absurd h (Nat.not_lt_zero _)
  | succ fuel ih =>
    intro m h
    cases hfe : findEligible m.dependencies with
    | none =>
      have hz := findEligible_none hfe
      rw [runInstall_stop hfe fuel, hz]
      exact ⟨rfl, rfl⟩
    | some i =>
      have hcnt := findEligible_some_countP hfe
      rw [runInstall_round hfe fuel]
      set m2 : Model :=
        { m with
          dependencies :=
            updateAt (fun d => { d with installing := false, installed := true })
              m.dependencies i,
          installCount := m.installCount + 1 } with hm2
      have hlt : m2.dependencies.countP eligible < fuel := by
        rw [hm2]; simp only; omega
      rcases ih m2 hlt with ⟨h1, h2⟩
      refine ⟨h1, ?_⟩
      rw [h2, hm2]
      simp only
      omega

theorem countP_eligible_of_fresh :
    ∀ {l : List Dependency}, (∀ d ∈ l, d.installing = false ∧ d.installed = false) →
      l.countP eligible = l.countP (·.selected) := by
  intro l h
  refine List.countP_congr ?_
  intro d hd
  rcases h d hd with ⟨h1, h2⟩
  simp [eligible, h1, h2]

/-- C1: each `InstallAllMsg` step scans `dependencies` in order and acts on
the first entry with `selected=true, installed=false, installing=false`,
marking it installing and dispatching its install; each `OnInstalledMsg`
flips the flags to installed, increments `installCount`, and re-emits
`InstallAllMsg`; when no eligible entry remains, the page moves to
`Page4View` (audit pending) and, for a run started with no entry installed
or installing and a zero counter, `installCount` then equals the number of
selected entries in the (expanded) list, assuming every install succeeds. -/
theorem install_sequencer_correct :
    (∀ (l : List Dependency) (i : Nat), findEligible l = some i →
       i < l.length ∧ eligible (l.getD i default) = true ∧
         ∀ j, j < i → eligible (l.getD j default) = false) ∧
    (∀ (m : Model) (i : Nat), findEligible m.dependencies = some i →
       update m .installAllMsg =
         ({ m with dependencies :=
              updateAt (fun d => { d with installing := true }) m.dependencies i },
          .installTask i)) ∧
    (∀ (m : Model) (i : Nat),
       update m (.onInstalledMsg i) =
         ({ m with
            dependencies :=
              updateAt (fun d => { d with installing := false, installed := true })
                m.dependencies i,
            installCount := m.installCount + 1 },
          .installAllMsgCmd)) ∧
    (∀ m : Model, findEligible m.dependencies = none →
       update m .installAllMsg = ({ m with view := Page4View }, .auditTask)) ∧
    (∀ m : Model, m.installCount = 0 →
       (∀ d ∈ m.dependencies, d.installing = false ∧ d.installed = false) →
       (runInstall (m.dependencies.length + 1) m).view = Page4View ∧
       (runInstall (m.dependencies.length + 1) m).installCount
         = m.dependencies.countP (·.selected)) := by
  refine ⟨fun l i h => findEligible_some h, ?_, ?_, ?_, ?_⟩
  · intro m i h; simp [update, h]
  · intro m i; rfl
  · intro m h; simp [update, h]
  · intro m h0 hfresh
    have hle : m.dependencies.countP eligible < m.dependencies.length + 1 :=
      Nat.lt_succ_of_le (List.countP_le_length _)
    rcases runInstall_spec (m.dependencies.length + 1) m hle with ⟨h1, h2⟩
    refine ⟨h1, ?_⟩
    rw [h2, h0, countP_eligible_of_fresh hfresh, Nat.zero_add]

/-- Witness for C1: running the sequencer over the seed list with all seven
entries selected and fresh installs all seven and lands on the audit page. -/
theorem install_sequencer_correct_witness :
    (runInstall
        (({ view := Page3View, dependencies := seedDependencies } : Model).dependencies.length
          + 1)
        { view := Page3View, dependencies := seedDependencies }).view = Page4View ∧
    (runInstall
        (({ view := Page3View, dependencies := seedDependencies } : Model).dependencies.length
          + 1)
        { view := Page3View, dependencies := seedDependencies }).installCount
      = seedDependencies.countP (·.selected) :=
  install_sequencer_correct.2.2.2.2
    { view := Page3View, dependencies := seedDependencies } rfl (by decide)

/-! ### Reachable states and the dependency invariants -/

/-- No entry of the list has an install in flight. -/
def noInstalling (l : List Dependency) : Prop := ∀ d ∈ l, d.installing = false

theorem impliedDeps_flags (name : String) :
    ∀ d ∈ impliedDeps name, d.installing = false ∧ d.installed = false := by
  intro d hd
  unfold impliedDeps at hd
  split at hd
  · simp only [List.mem_cons, List.not_mem_nil, or_false] at hd
    rcases hd with rfl | rfl | rfl | rfl | rfl
    all_goals exact ⟨rfl, rfl⟩
  · split at hd
    · simp only [List.mem_cons, List.not_mem_nil, or_false] at hd
      rw [hd]
      exact ⟨rfl, rfl⟩
    · simp at hd

theorem extraDepsList_flags :
    ∀ (l : List Dependency), ∀ d ∈ extraDepsList l,
      d.installing = false ∧ d.installed = false := by
  intro l
  induction l with
  | nil => intro d hd; simp [extraDepsList] at hd
  | cons a as ih =>
    intro d hd
    simp only [extraDepsList, List.mem_append] at hd
    rcases hd with hd | hd
    · by_cases ha : a.selected
      · rw [if_pos ha] at hd
        exact impliedDeps_flags a.name d hd
      · rw [if_neg ha] at hd
        simp at hd
    · exact ih d hd

/-- States reachable by the event loop.  Key events can arrive at any time.
The completion messages are constrained exactly as the single-in-flight
command discipline of the Bubble Tea runtime delivers them (§5 of the
design: a state only issues the next asynchronous task after the previous
task's completion message has been applied):
* `SetupMessage` is produced by the command dispatched from page 1 and is
  applied while the page is still 1;
* `ExtraDepsMessage` is produced by `extraDependencies` dispatched when
  Enter moved the page to 3, and its payload was computed from the
  dependency list at dispatch time, which no intervening event can change;
* `InstallAllMsg` is emitted only by the `ExtraDepsMessage` handler (before
  any install starts) and by the `OnInstalledMsg` handler (which just
  cleared the unique in-flight flag), in both cases on page 3 with no
  install in flight;
* `OnInstalledMsg i` is the completion of the install dispatched for entry
  `i`, which was marked `installing` and has not been unmarked since;
* audit results and error messages can arrive whenever their task ran. -/
inductive Reachable : Model → Prop where
  | init : Reachable initialModel
  | key {m : Model} (k : KeyEv) : Reachable m → Reachable (update m (.key k)).1
  | setup {m : Model} (p : String) : Reachable m → m.view = Page1View →
      Reachable (update m (.setupMsg p)).1
  | extra {m : Model} : Reachable m → m.view = Page3View →
      Reachable (update m (.extraDepsMsg (extraDepsList m.dependencies))).1
  | installAll {m : Model} : Reachable m → m.view = Page3View →
      noInstalling m.dependencies → Reachable (update m .installAllMsg).1
  | onInstalled {m : Model} (i : Nat) : Reachable m → i < m.dependencies.length →
      (m.dependencies.getD i default).installing = true →
      Reachable (update m (.onInstalledMsg i)).1
  | auditDone {m : Model} (a : npmAuditJSON) : Reachable m →
      Reachable (update m (.auditMsg a)).1
  | fatal {m : Model} (e : String) : Reachable m → Reachable (update m (.errorMsg e)).1

/-- The inductive invariant: the three dependency invariants of the data
model, strengthened with the auxiliary fact that no install is in flight
while the wizard is still on the name-entry or selection page. -/
def Inv (m : Model) : Prop :=
  (∀ d ∈ m.dependencies, d.installing = true → d.selected = true ∧ d.installed = false) ∧
  m.dependencies.countP (·.installing) ≤ 1 ∧
  m.installCount = m.dependencies.countP (·.installed) ∧
  ((m.view = Page1View ∨ m.view = Page2View) → noInstalling m.dependencies)

theorem inv_initialModel : Inv initialModel := by
  refine ⟨?_, ?_, ?_, ?_⟩
  · intro d hd; revert d; decide
  · decide
  · decide
  · intro _ d hd; revert d; decide

theorem page3_not_entry {v : PageNumber} (h : v = Page3View) :
    ¬(v = Page1View ∨ v = Page2View) := by subst h; decide

theorem page4_not_entry {v : PageNumber} (h : v = Page4View) :
    ¬(v = Page1View ∨ v = Page2View) := by subst h; decide

theorem page5_not_entry {v : PageNumber} (h : v = Page5View) :
    ¬(v = Page1View ∨ v = Page2View) := by subst h; decide

theorem eligible_parts {d : Dependency} (h : eligible d = true) :
    d.selected = true ∧ d.installed = false ∧ d.installing = false := by
  have h1 := h
  unfold eligible at h1
  rcases Bool.and_eq_true_iff.mp h1 with ⟨h2, h3⟩
  rcases Bool.and_eq_true_iff.mp h2 with ⟨h4, h5⟩
  exact ⟨h4, Bool.not_eq_true' .. |>.mp h5, Bool.not_eq_true' .. |>.mp h3⟩

theorem reachable_inv : ∀ {m : Model}, Reachable m → Inv m := by
  intro m h
  induction h with
  | init => exact inv_initialModel
  | @key m k hr ih =>
    rcases ih with ⟨i1, i2, i3, i4⟩
    cases k with
    | esc => exact ⟨i1, i2, i3, i4⟩
    | enter =>
      by_cases h1 : m.view = Page1View
      · simp only [update, if_neg (by decide : ¬(KeyEv.enter = KeyEv.esc)), if_pos h1]
        exact ⟨i1, i2, i3, i4⟩
      · by_cases h2 : m.view = Page2View
        · simp only [update, if_neg (by decide : ¬(KeyEv.enter = KeyEv.esc)), if_neg h1,
            if_pos h2]
          exact ⟨i1, i2, i3, fun hvv => absurd hvv (page3_not_entry rfl)⟩
        · simp only [update, if_neg (by decide : ¬(KeyEv.enter = KeyEv.esc)), if_neg h1,
            if_neg h2]
          exact ⟨i1, i2, i3, i4⟩
    | toggle =>
      by_cases h1 : m.view = Page1View
      · simp only [update, if_neg (by decide : ¬(KeyEv.toggle = KeyEv.esc)), if_pos h1]
        exact ⟨i1, i2, i3, i4⟩
      · by_cases h2 : m.view = Page2View
        · simp only [update, if_neg (by decide : ¬(KeyEv.toggle = KeyEv.esc)), if_neg h1,
            if_pos h2]
          have hni := i4 (Or.inr h2)
          refine ⟨?_, ?_, ?_, ?_⟩
          · intro d hd hin
            rcases mem_updateAt (q := default) hd with hmem | ⟨hlt, rfl⟩
            · exact i1 d hmem hin
            · exact Bool.noConfusion
                (((hni _ (getD_mem hlt)).symm.trans hin : (false : Bool) = true))
          · show (updateAt (fun d => { d with selected := !d.selected })
                m.dependencies m.cursor).countP (·.installing) ≤ 1
            rw [countP_updateAt_of_pres (·.installing)
              (fun d => { d with selected := !d.selected }) (fun d => rfl)]
            exact i2
          · show m.installCount
              = (updateAt (fun d => { d with selected := !d.selected })
                  m.dependencies m.cursor).countP (·.installed)
            rw [countP_updateAt_of_pres (·.installed)
              (fun d => { d with selected := !d.selected }) (fun d => rfl)]
            exact i3
          · intro _ d hd
            rcases mem_updateAt (q := default) hd with hmem | ⟨hlt, rfl⟩
            · exact hni d hmem
            · exact hni (m.dependencies.getD m.cursor default) (getD_mem hlt)
        · simp only [update, if_neg (by decide : ¬(KeyEv.toggle = KeyEv.esc)), if_neg h1,
            if_neg h2]
          exact ⟨i1, i2, i3, i4⟩
    | up =>
      by_cases h1 : m.view = Page1View
      · simp only [update, if_neg (by decide : ¬(KeyEv.up = KeyEv.esc)), if_pos h1]
        exact ⟨i1, i2, i3, i4⟩
      · by_cases h2 : m.view = Page2View
        · simp only [update, if_neg (by decide : ¬(KeyEv.up = KeyEv.esc)), if_neg h1,
            if_pos h2]
          exact ⟨i1, i2, i3, i4⟩
        · simp only [update, if_neg (by decide : ¬(KeyEv.up = KeyEv.esc)), if_neg h1,
            if_neg h2]
          exact ⟨i1, i2, i3, i4⟩
    | down =>
      by_cases h1 : m.view = Page1View
      · simp only [update, if_neg (by decide : ¬(KeyEv.down = KeyEv.esc)), if_pos h1]
        exact ⟨i1, i2, i3, i4⟩
      · by_cases h2 : m.view = Page2View
        · simp only [update, if_neg (by decide : ¬(KeyEv.down = KeyEv.esc)), if_neg h1,
            if_pos h2]
          exact ⟨i1, i2, i3, i4⟩
        · simp only [update, if_neg (by decide : ¬(KeyEv.down = KeyEv.esc)), if_neg h1,
            if_neg h2]
          exact ⟨i1, i2, i3, i4⟩
    | other =>
      by_cases h1 : m.view = Page1View
      · simp only [update, if_neg (by decide : ¬(KeyEv.other = KeyEv.esc)), if_pos h1]
        exact ⟨i1, i2, i3, i4⟩
      · by_cases h2 : m.view = Page2View
        · simp only [update, if_neg (by decide : ¬(KeyEv.other = KeyEv.esc)), if_neg h1,
            if_pos h2]
          exact ⟨i1, i2, i3, i4⟩
        · simp only [update, if_neg (by decide : ¬(KeyEv.other = KeyEv.esc)), if_neg h1,
            if_neg h2]
          exact ⟨i1, i2, i3, i4⟩
  | @setup m p hr hv ih =>
    rcases ih with ⟨i1, i2, i3, i4⟩
    exact ⟨i1, i2, i3, fun _ => i4 (Or.inl hv)⟩
  | @extra m hr hv ih =>
    rcases ih with ⟨i1, i2, i3, i4⟩
    have hzing : (extraDepsList m.dependencies).countP (·.installing) = 0 := by
      rw [List.countP_eq_zero]
      intro d hd
      simp [(extraDepsList_flags _ d hd).1]
    have hzed : (extraDepsList m.dependencies).countP (·.installed) = 0 := by
      rw [List.countP_eq_zero]
      intro d hd
      simp [(extraDepsList_flags _ d hd).2]
    refine ⟨?_, ?_, ?_, ?_⟩
    · intro d hd hin
      rcases List.mem_append.mp hd with hmem | hmem
      · exact i1 d hmem hin
      · exact Bool.noConfusion
          (((extraDepsList_flags _ d hmem).1.symm.trans hin : (false : Bool) = true))
    · show (m.dependencies ++ extraDepsList m.dependencies).countP (·.installing) ≤ 1
      rw [List.countP_append, hzing]
      omega
    · show m.installCount
        = (m.dependencies ++ extraDepsList m.dependencies).countP (·.installed)
      rw [List.countP_append, hzed]
      omega
    · intro hvv
      exact absurd hvv (page3_not_entry hv)
  | @installAll m hr hv hni ih =>
    rcases ih with ⟨i1, i2, i3, i4⟩
    cases hfe : findEligible m.dependencies with
    | none =>
      simp only [update, hfe]
      exact ⟨i1, i2, i3, fun hvv => absurd hvv (page4_not_entry rfl)⟩
    | some i =>
      simp only [update, hfe]
      rcases findEligible_some (q := default) hfe with ⟨hlt, hel, _⟩
      rcases eligible_parts hel with ⟨hsel, hinst, _⟩
      refine ⟨?_, ?_, ?_, ?_⟩
      · intro d hd hin
        rcases mem_updateAt (q := default) hd with hmem | ⟨_, rfl⟩
        · exact i1 d hmem hin
        · exact ⟨hsel, hinst⟩
      · have hz : m.dependencies.countP (·.installing) = 0 := by
          rw [List.countP_eq_zero]
          intro d hd
          simp [hni d hd]
        have hle := countP_updateAt_le (·.installing)
          (fun d => { d with installing := true }) m.dependencies i
        show (updateAt (fun d => { d with installing := true })
            m.dependencies i).countP (·.installing) ≤ 1
        omega
      · show m.installCount
          = (updateAt (fun d => { d with installing := true })
              m.dependencies i).countP (·.installed)
        rw [countP_updateAt_of_pres (·.installed)
          (fun d => { d with installing := true }) (fun d => rfl)]
        exact i3
      · intro hvv
        exact absurd hvv (page3_not_entry hv)
  | @onInstalled m i hr hlt hin ih =>
    rcases ih with ⟨i1, i2, i3, i4⟩
    have hmem := getD_mem (q := default) hlt
    rcases i1 _ hmem hin with ⟨hsel, hnotinst⟩
    refine ⟨?_, ?_, ?_, ?_⟩
    · intro d hd hdin
      rcases mem_updateAt (q := default) hd with hm | ⟨_, rfl⟩
      · exact i1 d hm hdin
      · exact Bool.noConfusion (hdin : (false : Bool) = true)
    · have hcnt := countP_updateAt (·.installing)
        (fun d => { d with installing := false, installed := true })
        (q := default) m.dependencies i hlt
      rw [if_pos hin, if_neg (by decide : ¬((false : Bool) = true))] at hcnt
      show (updateAt (fun d => { d with installing := false, installed := true })
          m.dependencies i).countP (·.installing) ≤ 1
      omega
    · have hcnt := countP_updateAt (·.installed)
        (fun d => { d with installing := false, installed := true })
        (q := default) m.dependencies i hlt
      rw [if_neg (fun hcontra => Bool.noConfusion (hnotinst.symm.trans hcontra)),
        if_pos (rfl : (true : Bool) = true)] at hcnt
      show m.installCount + 1
        = (updateAt (fun d => { d with installing := false, installed := true })
            m.dependencies i).countP (·.installed)
      omega
    · intro hvv
      exact Bool.noConfusion (((i4 hvv _ hmem).symm.trans hin : (false : Bool) = true))
  | @auditDone m a hr ih =>
    rcases ih with ⟨i1, i2, i3, i4⟩
    exact ⟨i1, i2, i3, fun hvv => absurd hvv (page5_not_entry rfl)⟩
  | @fatal m e hr ih =>
    rcases ih with ⟨i1, i2, i3, i4⟩
    exact ⟨i1, i2, i3, i4⟩

/-- C2: in every state reachable from the initial model, the three
dependency invariants hold: an installing entry is selected and not yet
installed; at most one entry is installing; and `installCount` equals the
number of installed entries. -/
theorem reachable_invariants (m : Model) (h : Reachable m) :
    (∀ d ∈ m.dependencies, d.installing = true → d.selected = true ∧ d.installed = false) ∧
    m.dependencies.countP (·.installing) ≤ 1 ∧
    m.installCount = m.dependencies.countP (·.installed) :=
  ⟨(reachable_inv h).1, (reachable_inv h).2.1, (reachable_inv h).2.2.1⟩

/-- Witness for C2 at the initial model. -/
theorem reachable_invariants_witness :
    (∀ d ∈ initialModel.dependencies,
        d.installing = true → d.selected = true ∧ d.installed = false) ∧
    initialModel.dependencies.countP (·.installing) ≤ 1 ∧
    initialModel.installCount = initialModel.dependencies.countP (·.installed) :=
  reachable_invariants initialModel Reachable.init

/-! ### Selection-page key sequences: toggling and cursor movement -/

/-- The keys handled by the dependency-selection page body (quit and
confirm aside): toggle (Space/Left/Right), up and down. -/
inductive SelKey where
  | toggle | up | down
deriving DecidableEq, Repr

/-- Injection of selection-page keys into key events. -/
def SelKey.toKey : SelKey → KeyEv
  | .toggle => .toggle
  | .up => .up
  | .down => .down

/-- Fold a sequence of selection-page key events through the event loop. -/
def applySelKeys (ks : List SelKey) (m : Model) : Model :=
  ks.foldl (fun m k => (update m (.key k.toKey)).1) m

/-- Number of occurrences of index `j` in a trace of toggled indices. -/
def countIdx (j : Nat) : List Nat → Nat
  | [] => 0
  | c :: cs => (if c = j then 1 else 0) + countIdx j cs

/-- The trace of cursor positions at which toggle events fire, for a key
sequence run from cursor position `c` over a list of length `len` (cursor
movement clamps at `0` and `len - 1` exactly as in `Model.Update`). -/
def toggleTrace (len : Nat) : List SelKey → Nat → List Nat
  | [], _ => []
  | .toggle :: ks, c => c :: toggleTrace len ks c
  | .up :: ks, c => toggleTrace len ks (if c > 0 then c - 1 else c)
  | .down :: ks, c => toggleTrace len ks (if c < len - 1 then c + 1 else c)

theorem update_selKey_toggle {m : Model} (h : m.view = Page2View) :
    (update m (.key KeyEv.toggle)).1 =
      { m with dependencies :=
          updateAt (fun d => { d with selected := !d.selected }) m.dependencies m.cursor } := by
  have h1 : ¬m.view = Page1View := by rw [h]; decide
  simp only [update, if_neg (by decide : ¬(KeyEv.toggle = KeyEv.esc)), if_neg h1, if_pos h]

theorem update_selKey_up {m : Model} (h : m.view = Page2View) :
    (update m (.key KeyEv.up)).1 =
      { m with cursor := if m.cursor > 0 then m.cursor - 1 else m.cursor } := by
  have h1 : ¬m.view = Page1View := by rw [h]; decide
  simp only [update, if_neg (by decide : ¬(KeyEv.up = KeyEv.esc)), if_neg h1, if_pos h]

theorem update_selKey_down {m : Model} (h : m.view = Page2View) :
    (update m (.key KeyEv.down)).1 =
      { m with cursor :=
          if m.cursor < m.dependencies.length - 1 then m.cursor + 1 else m.cursor } := by
  have h1 : ¬m.view = Page1View := by rw [h]; decide
  simp only [update, if_neg (by decide : ¬(KeyEv.down = KeyEv.esc)), if_neg h1, if_pos h]

/-- C9: over any sequence of up/down/toggle keys on the selection page of a
non-empty dependency list, the cursor stays in `[0, len - 1]` (it is a
`Nat`, so `0 ≤ cursor` holds by type); moreover an up key at index `0` and
a down key at index `len - 1` leave the cursor unchanged — clamping, no
wraparound. -/
theorem cursor_clamping :
    ∀ (ks : List SelKey) (m : Model), m.view = Page2View →
      m.cursor < m.dependencies.length →
      (applySelKeys ks m).cursor < m.dependencies.length ∧
      (m.cursor = 0 → (update m (.key KeyEv.up)).1.cursor = m.cursor) ∧
      (m.cursor = m.dependencies.length - 1 →
        (update m (.key KeyEv.down)).1.cursor = m.cursor) := by
  have main : ∀ (ks : List SelKey) (m : Model), m.view = Page2View →
      m.cursor < m.dependencies.length →
      (applySelKeys ks m).cursor < m.dependencies.length := by
    intro ks
    induction ks with
    | nil => intro m _ hcur; exact hcur
    | cons k ks ih =>
      intro m hview hcur
      cases k with
      | toggle =>
        have hstep := update_selKey_toggle hview
        have hlen := updateAt_length (fun d => { d with selected := !d.selected })
          m.dependencies m.cursor
        have := ih (update m (.key KeyEv.toggle)).1
          (by rw [hstep]; exact hview) (by rw [hstep]; simpa [hlen] using hcur)
        simpa [applySelKeys, SelKey.toKey, hstep, hlen] using this
      | up =>
        have hstep := update_selKey_up hview
        have := ih (update m (.key KeyEv.up)).1
          (by rw [hstep]; exact hview) (by rw [hstep]; simp only; split <;> omega)
        simpa [applySelKeys, SelKey.toKey, hstep] using this
      | down =>
        have hstep := update_selKey_down hview
        have := ih (update m (.key KeyEv.down)).1
          (by rw [hstep]; exact hview) (by rw [hstep]; simp only; split <;> omega)
        simpa [applySelKeys, SelKey.toKey, hstep] using this
  intro ks m hview hcur
  refine ⟨main ks m hview hcur, ?_, ?_⟩
  · intro h0
    rw [update_selKey_up hview]
    simp [h0]
  · intro hend
    rw [update_selKey_down hview]
    simp only
    rw [if_neg (by omega)]

/-- Witness for C9: three movement keys and a toggle from the initial
selection state keep the cursor in range, and the boundary keys hold it. -/
theorem cursor_clamping_witness :
    (applySelKeys [SelKey.down, SelKey.down, SelKey.up, SelKey.toggle]
        { view := Page2View, dependencies := seedDependencies }).cursor
      < ({ view := Page2View, dependencies := seedDependencies } : Model).dependencies.length ∧
    (({ view := Page2View, dependencies := seedDependencies } : Model).cursor = 0 →
      (update { view := Page2View, dependencies := seedDependencies }
          (.key KeyEv.up)).1.cursor
        = ({ view := Page2View, dependencies := seedDependencies } : Model).cursor) ∧
    (({ view := Page2View, dependencies := seedDependencies } : Model).cursor
        = ({ view := Page2View, dependencies := seedDependencies } : Model).dependencies.length
            - 1 →
      (update { view := Page2View, dependencies := seedDependencies }
          (.key KeyEv.down)).1.cursor
        = ({ view := Page2View, dependencies := seedDependencies } : Model).cursor) :=
  cursor_clamping [SelKey.down, SelKey.down, SelKey.up, SelKey.toggle]
    { view := Page2View, dependencies := seedDependencies } rfl (by decide)

/-- C8: over any sequence of selection-page key events, the final selected
flag of each entry is the XOR of its initial flag with the parity of the
number of toggle events fired at its index (so toggling an entry twice
restores it). -/
theorem toggle_parity :
    ∀ (ks : List SelKey) (m : Model), m.view = Page2View →
      ∀ j, j < m.dependencies.length →
        ((applySelKeys ks m).dependencies.getD j default).selected
          = Bool.xor ((m.dependencies.getD j default).selected)
              (decide
                (countIdx j (toggleTrace m.dependencies.length ks m.cursor) % 2 = 1)) := by
  intro ks
  induction ks with
  | nil =>
    intro m _ j _
    simp [applySelKeys, toggleTrace, countIdx]
  | cons k ks ih =>
    intro m hview j hj
    cases k with
    | toggle =>
      have hstep := update_selKey_toggle hview
      have hlen := updateAt_length (fun d => { d with selected := !d.selected })
        m.dependencies m.cursor
      have happ : applySelKeys (SelKey.toggle :: ks) m
          = applySelKeys ks (update m (.key KeyEv.toggle)).1 := rfl
      have hih := ih (update m (.key KeyEv.toggle)).1 (by rw [hstep]; exact hview)
        j (by rw [hstep]; simpa [hlen] using hj)
      rw [happ, hih, hstep]
      simp only [toggleTrace, countIdx, hlen]
      by_cases hjc : j = m.cursor
      · subst hjc
        rw [getD_updateAt_self (by exact hj)]
        have h1 : (if m.cursor = m.cursor then (1 : Nat) else 0) = 1 := if_pos rfl
        have h2 : 1 + countIdx m.cursor (toggleTrace m.dependencies.length ks m.cursor)
            = countIdx m.cursor (toggleTrace m.dependencies.length ks m.cursor) + 1 := by
          omega
        simp only [h1, h2]
        by_cases hp :
            countIdx m.cursor (toggleTrace m.dependencies.length ks m.cursor) % 2 = 1
        · have hp2 :
              ¬((1 + countIdx m.cursor (toggleTrace m.dependencies.length ks m.cursor))
                  % 2 = 1) := by omega
          simp [hp, hp2]
        · have hp2 :
              (1 + countIdx m.cursor (toggleTrace m.dependencies.length ks m.cursor))
                  % 2 = 1 := by omega
          simp [hp, hp2]
      · rw [getD_updateAt_ne (fun hc => hjc hc)]
        have h1 : (if m.cursor = j then (1 : Nat) else 0) = 0 :=
          if_neg (fun hc => hjc hc.symm)
        simp only [h1]
        simp
    | up =>
      have hstep := update_selKey_up hview
      have happ : applySelKeys (SelKey.up :: ks) m
          = applySelKeys ks (update m (.key KeyEv.up)).1 := rfl
      have hih := ih (update m (.key KeyEv.up)).1 (by rw [hstep]; exact hview) j (by rw [hstep]; exact hj)
      rw [happ, hih, hstep]
      rfl
    | down =>
      have hstep := update_selKey_down hview
      have happ : applySelKeys (SelKey.down :: ks) m
          = applySelKeys ks (update m (.key KeyEv.down)).1 := rfl
      have hih := ih (update m (.key KeyEv.down)).1 (by rw [hstep]; exact hview) j (by rw [hstep]; exact hj)
      rw [happ, hih, hstep]
      rfl

/-- Witness for C8: a toggle-move-toggle sequence from the initial selection
state, checked at entry `1`. -/
theorem toggle_parity_witness :
    ((applySelKeys [SelKey.toggle, SelKey.down, SelKey.toggle]
          { view := Page2View, dependencies := seedDependencies }).dependencies.getD
        1 default).selected
      = Bool.xor
          ((({ view := Page2View, dependencies := seedDependencies } : Model).dependencies.getD
              1 default).selected)
          (decide
            (countIdx 1
                (toggleTrace
                  ({ view := Page2View, dependencies := seedDependencies } :
                      Model).dependencies.length
                  [SelKey.toggle, SelKey.down, SelKey.toggle]
                  ({ view := Page2View, dependencies := seedDependencies } : Model).cursor)
              % 2 = 1)) :=
  toggle_parity [SelKey.toggle, SelKey.down, SelKey.toggle]
    { view := Page2View, dependencies := seedDependencies } rfl 1 (by decide)

/-! ### Severity classification -/

/-- Severity classification as the specification words it: the label names
the highest severity level with a nonzero count, searched in the strict
priority order critical > high > moderate > low > info; all-zero counts
yield no label.  Reference definition written from the spec, to be compared
with `severityStatus` from the source. -/
def severityLabelSpec (audit : npmAuditJSON) : String :=
  let v := audit.metadata.vulnerabilities
  match [(v.critical, "Critical"), (v.high, "High"), (v.moderate, "Moderate"),
         (v.low, "Low"), (v.info, "Info")].find? (fun p => decide (0 < p.1)) with
  | some p => "Severity: " ++ p.2 ++ " "
  | none => ""

/-- C7: the reported severity label is decided by the strict priority order
critical > high > moderate > low > info > none — `severityStatus` agrees
with the highest-nonzero-count reference classifier on every report; counts
`{high:1, moderate:5}` classify as High, and all-zero counts yield no
label. -/
theorem severity_priority :
    (∀ a : npmAuditJSON, severityStatus a = severityLabelSpec a) ∧
    severityStatus { metadata := { vulnerabilities := { high := 1, moderate := 5 } } }
      = "Severity: High " ∧
    severityStatus { metadata := { vulnerabilities := {} } } = "" := by
  refine ⟨?_, rfl, rfl⟩
  intro a
  by_cases h1 : 0 < a.metadata.vulnerabilities.critical
  · simp [severityStatus, severityLabelSpec, List.find?, h1]
  · by_cases h2 : 0 < a.metadata.vulnerabilities.high
    · simp [severityStatus, severityLabelSpec, List.find?, h1, h2]
    · by_cases h3 : 0 < a.metadata.vulnerabilities.moderate
      · simp [severityStatus, severityLabelSpec, List.find?, h1, h2, h3]
      · by_cases h4 : 0 < a.metadata.vulnerabilities.low
        · simp [severityStatus, severityLabelSpec, List.find?, h1, h2, h3, h4]
        · by_cases h5 : 0 < a.metadata.vulnerabilities.info
          · simp [severityStatus, severityLabelSpec, List.find?, h1, h2, h3, h4, h5]
          · simp [severityStatus, severityLabelSpec, List.find?, h1, h2, h3, h4, h5]

/-! ### Dependency expansion -/

/-- The seed dependency list in the selection state where exactly the
`typescript` and `react` entries are selected (all other flags as seeded). -/
def seedTsReactSelected : List Dependency :=
  [ { name := "typescript",  selected := true,  devDependency := true },
    { name := "react",       selected := true,  devDependency := false },
    { name := "kysely",      selected := false, devDependency := false },
    { name := "esbuild",     selected := false, devDependency := true },
    { name := "tailwindcss", selected := false, devDependency := true },
    { name := "nodemon",     selected := false, devDependency := true },
    { name := "dotenv",      selected := false, devDependency := true } ]

/-- C5: with exactly `typescript` and `react` selected, the expander
produces exactly the five react-implied records and nothing for
`typescript`; every produced record is pre-selected with its own fixed dev
classification; and the `ExtraDepsMessage` handler appends the produced
records verbatim — no deduplication against the seed list or among the
appended records. -/
theorem expansion_ts_react :
    extraDepsList seedTsReactSelected = impliedDeps "react" ∧
    (extraDepsList seedTsReactSelected).length = 5 ∧
    impliedDeps "typescript" = [] ∧
    (∀ d ∈ extraDepsList seedTsReactSelected,
      d.selected = true ∧ d.devDependency = true) ∧
    (∀ (m : Model) (deps : List Dependency),
      (update m (.extraDepsMsg deps)).1.dependencies = m.dependencies ++ deps) ∧
    (update { view := Page3View, dependencies := seedTsReactSelected }
          (.extraDepsMsg (extraDepsList seedTsReactSelected))).1.dependencies
      = seedTsReactSelected ++ impliedDeps "react" := by
  refine ⟨by decide, by decide, by decide, ?_, fun m deps => rfl, by decide⟩
  intro d hd
  revert d
  decide

/-- Witness for C5 at the first appended record. -/
theorem expansion_ts_react_witness :
    ({ name := "@types/react", selected := true, devDependency := true } :
        Dependency).selected = true ∧
    ({ name := "@types/react", selected := true, devDependency := true } :
        Dependency).devDependency = true :=
  expansion_ts_react.2.2.2.1
    { name := "@types/react", selected := true, devDependency := true } (by decide)

/-! ### Filesystem model: project setup and template copies -/

/-- A filesystem state: directory paths plus file contents.  A write conses
in front, so `lookupFile` sees the most recent write — this models
`os.WriteFile` overwrite semantics. -/
structure FS where
  dirs  : List String := []
  files : List (String × String) := []
deriving DecidableEq, Repr

def FS.lookupFile (fs : FS) (p : String) : Option String :=
  match fs.files.find? (fun e => decide (e.1 = p)) with
  | some e => some e.2
  | none => none

/-- Whether a filesystem entry (directory or file) exists at `p`; this is
what the `os.Open`/`os.ErrNotExist` probe in `getProjectPath` observes. -/
def FS.pathExists (fs : FS) (p : String) : Bool :=
  fs.dirs.contains p || (fs.lookupFile p).isSome

def FS.writeFile (fs : FS) (p content : String) : FS :=
  { fs with files := (p, content) :: fs.files }

/-- `os.MkdirAll` for the given directory paths (the source call creates
the project directory and its `src` subdirectory in one call). -/
def FS.mkdirAll (fs : FS) (ps : List String) : FS :=
  { fs with dirs := ps ++ fs.dirs }

/-- `path.Join` on clean segments, as used throughout the source.  Go's
`path.Join` drops empty segments, so `path.Join("", f) = f` — a relative
name, which the operating system resolves against the process working
directory; the embedding keeps such relative names as their own keys. -/
def pathJoin (a b : String) : String := if a = "" then b else a ++ "/" ++ b

/-- The error of `getProjectPath` when a filesystem entry already exists at
the target path (the source formats it as an `Unable to create project at
... directory already exists.` message).  The modelled filesystem
operations always succeed, so the other fatal I/O errors of the source
(which all map to `ErrorMsg`) do not arise in the model. -/
inductive InitError where
  | pathConflict (path : String)
deriving DecidableEq, Repr

/-- `EsbuildJs`: the embedded bundler-config template `static/esbuild.js`
(braces and apostrophes written as `\x7b`, `\x7d`, `\x27` escapes). -/
def EsbuildJs : String :=
  "import \x7b build \x7d from \x27esbuild\x27;\n\nawait build(\x7b\n    entryPoints: [\x27src/**/*.ts\x27],\n    platform: \x27node\x27,\n    target: \x27node16\x27,\n    format: \x27esm\x27,\n    bundle: false,\n    outdir: \x27./out\x27,\n    sourcemap: false,\n    logLevel: \x27warning\x27,\n\x7d);"

/-- Modelled from the spec: `EslintConfigJs`, the lint-config template blob
embedded from `static/eslintrc.cjs`, a file not included in the provided
sources.  §6 of the spec treats the template payloads as opaque byte blobs
that the core copies verbatim and never inspects, so an opaque stand-in
content is used. -/
def EslintConfigJs : String := "opaque lint-config template: eslintrc.cjs"

/-- Modelled from the spec: `IndexTs`, the starter-source template blob
embedded from `static/index.ts`, a file not included in the provided
sources (opaque blob per §6 of the spec). -/
def IndexTs : String := "opaque starter-source template: index.ts"

/-- Modelled from the spec: `TailwindConfigJs`, the styling-tool config
template blob embedded from `static/tailwind.config.js`, a file not
included in the provided sources (opaque blob per §6 of the spec). -/
def TailwindConfigJs : String := "opaque styling-tool config template: tailwind.config.js"

/-- The `package.json` document generated by `generatePackageJSON`: only
name, version `1.0.0` and type `module` are set.  The string stands for the
`json.MarshalIndent` serialization, whose exact text no claim inspects. -/
def packageJsonText (projectName : String) : String :=
  "packageJSON name=" ++ projectName ++ " version=1.0.0 type=module"

/-- The fixed `tsconfig.json` document generated by `generateTsconfigJSON`
(fixed compiler defaults keyed by nothing).  The string stands for its
`json.MarshalIndent` serialization, whose exact text no claim inspects. -/
def tsconfigJsonText : String :=
  "tsconfigJSON module=NodeNext moduleResolution=NodeNext target=ESNext"

/-- `getProjectPath` from the source: join the working directory with the
project name; if an entry exists at that path, fail with the path-conflict
error before creating anything; otherwise create the directory tree
(project directory and its `src` subdirectory) and return the path. -/
def getProjectPath (cwd projectName : String) (fs : FS) :
    FS × Except InitError String :=
  let projectPath := pathJoin cwd projectName
  if fs.pathExists projectPath then
    (fs, .error (.pathConflict projectPath))
  else
    (fs.mkdirAll [projectPath, pathJoin projectPath "src"], .ok projectPath)

/-- `setupProject` from the source, restricted to its filesystem effect:
resolve and create the project path, then write `package.json`,
`tsconfig.json`, `eslintrc.cjs` and `esbuild.js` in that order.  Both of
the last two writes copy the `EslintConfigJs` blob — the source passes
`EslintConfigJs` for the file named `esbuild.js` as well.  The two
`writeJson` calls join with the freshly computed `projectPath`, but the two
`copyStaticFile` calls join with `m.projectPath` of the model that
dispatched the setup — `modelProjectPath` here — which at the real call
site (Enter on page 1) is still the empty string, because `projectPath` is
only assigned by the later `SetupMessage` handler; with
`path.Join("", f) = f` those template copies therefore land at the bare
relative names, i.e. in the process working directory, not in the project
root. -/
def setupProjectFS (cwd projectName modelProjectPath : String) (fs : FS) :
    FS × Except InitError String :=
  match getProjectPath cwd projectName fs with
  | (fs1, .error e) => (fs1, .error e)
  | (fs1, .ok projectPath) =>
    let fs2 := fs1.writeFile (pathJoin projectPath "package.json")
      (packageJsonText projectName)
    let fs3 := fs2.writeFile (pathJoin projectPath "tsconfig.json") tsconfigJsonText
    let fs4 := fs3.writeFile (pathJoin modelProjectPath "eslintrc.cjs") EslintConfigJs
    let fs5 := fs4.writeFile (pathJoin modelProjectPath "esbuild.js") EslintConfigJs
    (fs5, .ok projectPath)

/-- The template-copy side effects of the `extraDependencies` loop: for
each selected entry in order, `typescript` copies the starter source into
`src/index.ts`, `esbuild` overwrites `esbuild.js` with the bundler-config
blob, and `tailwindcss` copies its config; unselected entries are
skipped. -/
def extraDependenciesFS (projectPath : String) : List Dependency → FS → FS
  | [], fs => fs
  | d :: ds, fs =>
    if d.selected then
      let fs1 := if d.name = "typescript" then
          fs.writeFile (pathJoin projectPath "src/index.ts") IndexTs
        else fs
      let fs2 := if d.name = "esbuild" then
          fs1.writeFile (pathJoin projectPath "esbuild.js") EsbuildJs
        else fs1
      let fs3 := if d.name = "tailwindcss" then
          fs2.writeFile (pathJoin projectPath "tailwind.config.js") TailwindConfigJs
        else fs2
      extraDependenciesFS projectPath ds fs3
    else
      extraDependenciesFS projectPath ds fs

theorem lookup_writeFile_same (fs : FS) (p c : String) :
    (fs.writeFile p c).lookupFile p = some c := by
  simp [FS.writeFile, FS.lookupFile, List.find?]

theorem lookup_writeFile_ne (fs : FS) {q p : String} (c : String) (h : ¬q = p) :
    (fs.writeFile q c).lookupFile p = fs.lookupFile p := by
  simp [FS.writeFile, FS.lookupFile, List.find?, h]

theorem pathJoin_inj_right {p a b : String} (h : pathJoin p a = pathJoin p b) : a = b := by
  unfold pathJoin at h
  by_cases hp : p = ""
  · simp only [if_pos hp] at h
    exact h
  · simp only [if_neg hp] at h
    have hd := congrArg String.data h
    simp only [String.data_append] at hd
    exact String.ext (List.append_cancel_left hd)

theorem length_pos_of_ne_empty {p : String} (h : p ≠ "") : 0 < p.length := by
  rcases Nat.eq_zero_or_pos p.length with h0 | hpos
  · exact absurd (String.ext (List.length_eq_zero.mp h0)) h
  · exact hpos

theorem pathJoin_length {p x : String} (h : p ≠ "") :
    (pathJoin p x).length = p.length + 1 + x.length := by
  unfold pathJoin
  rw [if_neg h, String.length_append, String.length_append]
  have hs : "/".length = 1 := rfl
  omega

theorem pathJoin_ne_of_length {p x y : String} (hp : p ≠ "")
    (hlt : y.length < p.length + 1 + x.length) : pathJoin p x ≠ y := by
  intro hc
  have hL := congrArg String.length hc
  rw [pathJoin_length hp] at hL
  omega

theorem pathJoin_ne_empty {a : String} (b : String) (ha : a ≠ "") : pathJoin a b ≠ "" := by
  apply pathJoin_ne_of_length ha
  have h1 := length_pos_of_ne_empty ha
  have h0 : ("" : String).length = 0 := rfl
  omega

/-- C6: if a filesystem entry already exists at the derived target path,
project initialization fails with the path-conflict error and the
filesystem is unchanged: no directory is created, no config document is
written, no template is copied. -/
theorem setup_path_conflict :
    ∀ (cwd name mpp : String) (fs : FS),
      fs.pathExists (pathJoin cwd name) = true →
      (setupProjectFS cwd name mpp fs).2
          = .error (.pathConflict (pathJoin cwd name)) ∧
      (setupProjectFS cwd name mpp fs).1 = fs := by
  intro cwd name mpp fs h
  unfold setupProjectFS getProjectPath
  simp [h]

/-- Witness for C6: project name `demo` with directory `demo` already
present under the working directory (the model's `projectPath` is still
empty when `setupProject` runs). -/
theorem setup_path_conflict_witness :
    (setupProjectFS "/home/user" "demo" ""
          { dirs := ["/home/user/demo"] }).2
        = .error (.pathConflict (pathJoin "/home/user" "demo")) ∧
    (setupProjectFS "/home/user" "demo" "" { dirs := ["/home/user/demo"] }).1
        = { dirs := ["/home/user/demo"] } :=
  setup_path_conflict "/home/user" "demo" "" { dirs := ["/home/user/demo"] } (by decide)

theorem extraDependenciesFS_esbuild_lookup :
    ∀ (deps : List Dependency) (p : String) (fs : FS),
      (∀ d ∈ deps, d.name = "esbuild" → d.selected = false) →
      (extraDependenciesFS p deps fs).lookupFile (pathJoin p "esbuild.js")
        = fs.lookupFile (pathJoin p "esbuild.js") := by
  intro deps
  induction deps with
  | nil => intro p fs _; rfl
  | cons d ds ih =>
    intro p fs hsel
    have hds : ∀ d ∈ ds, d.name = "esbuild" → d.selected = false :=
      fun e he => hsel e (List.mem_cons_of_mem d he)
    by_cases hs : d.selected
    · have hnotesb : ¬d.name = "esbuild" := by
        intro hn
        exact absurd hs (by simp [hsel d (List.mem_cons_self d ds) hn])
      simp only [extraDependenciesFS, if_pos hs, if_neg hnotesb]
      by_cases ht : d.name = "typescript"
      · by_cases hw : d.name = "tailwindcss"
        · rw [ht] at hw; exact absurd hw (by decide)
        · simp only [if_pos ht, if_neg hw]
          rw [ih p _ hds,
            lookup_writeFile_ne _ _
              (fun hc => absurd (pathJoin_inj_right hc) (by decide))]
      · by_cases hw : d.name = "tailwindcss"
        · simp only [if_neg ht, if_pos hw]
          rw [ih p _ hds,
            lookup_writeFile_ne _ _
              (fun hc => absurd (pathJoin_inj_right hc) (by decide))]
        · simp only [if_neg ht, if_neg hw]
          exact ih p fs hds
    · simp only [extraDependenciesFS, if_neg hs]
      exact ih p fs hds

/-- A single conditional template write of the expansion loop never clears
an `esbuild.js` entry at the project root, and the (re-)write for a
selected `esbuild` entry stores the `EsbuildJs` blob there. -/
theorem extraDependenciesFS_esbuild_preserved :
    ∀ (deps : List Dependency) (p : String) (fs : FS),
      fs.lookupFile (pathJoin p "esbuild.js") = some EsbuildJs →
      (extraDependenciesFS p deps fs).lookupFile (pathJoin p "esbuild.js")
        = some EsbuildJs := by
  intro deps
  induction deps with
  | nil => intro p fs h; exact h
  | cons d ds ih =>
    intro p fs h
    by_cases hs : d.selected
    · simp only [extraDependenciesFS, if_pos hs]
      apply ih
      have h1 : ∀ fsx : FS, fsx.lookupFile (pathJoin p "esbuild.js") = some EsbuildJs →
          (if d.name = "typescript" then
              fsx.writeFile (pathJoin p "src/index.ts") IndexTs
            else fsx).lookupFile (pathJoin p "esbuild.js") = some EsbuildJs := by
        intro fsx hx
        split
        · rw [lookup_writeFile_ne _ _
            (fun hc => absurd (pathJoin_inj_right hc) (by decide))]
          exact hx
        · exact hx
      have h2 : ∀ fsx : FS, fsx.lookupFile (pathJoin p "esbuild.js") = some EsbuildJs →
          (if d.name = "esbuild" then
              fsx.writeFile (pathJoin p "esbuild.js") EsbuildJs
            else fsx).lookupFile (pathJoin p "esbuild.js") = some EsbuildJs := by
        intro fsx hx
        split
        · exact lookup_writeFile_same _ _ _
        · exact hx
      have h3 : ∀ fsx : FS, fsx.lookupFile (pathJoin p "esbuild.js") = some EsbuildJs →
          (if d.name = "tailwindcss" then
              fsx.writeFile (pathJoin p "tailwind.config.js") TailwindConfigJs
            else fsx).lookupFile (pathJoin p "esbuild.js") = some EsbuildJs := by
        intro fsx hx
        split
        · rw [lookup_writeFile_ne _ _
            (fun hc => absurd (pathJoin_inj_right hc) (by decide))]
          exact hx
        · exact hx
      exact h3 _ (h2 _ (h1 _ h))
    · simp only [extraDependenciesFS, if_neg hs]
      exact ih p fs h

/-- When some selected entry is named `esbuild`, the expansion loop writes
the bundler-config blob to the project-root `esbuild.js`. -/
theorem extraDependenciesFS_esbuild_selected :
    ∀ (deps : List Dependency) (p : String) (fs : FS),
      (∃ d ∈ deps, d.name = "esbuild" ∧ d.selected = true) →
      (extraDependenciesFS p deps fs).lookupFile (pathJoin p "esbuild.js")
        = some EsbuildJs := by
  intro deps
  induction deps with
  | nil =>
    intro p fs h
    rcases h with ⟨d, hd, _⟩
    simp at hd
  | cons d ds ih =>
    intro p fs hex
    rcases hex with ⟨e, he, hename, hesel⟩
    rcases List.mem_cons.mp he with rfl | hmem
    · simp only [extraDependenciesFS, if_pos hesel,
        if_neg (fun hc : e.name = "typescript" =>
          absurd (hename.symm.trans hc) (by decide)),
        if_pos hename,
        if_neg (fun hc : e.name = "tailwindcss" =>
          absurd (hename.symm.trans hc) (by decide))]
      exact extraDependenciesFS_esbuild_preserved ds p _ (lookup_writeFile_same _ _ _)
    · by_cases hs : d.selected
      · simp only [extraDependenciesFS, if_pos hs]
        exact ih p _ ⟨e, hmem, hename, hesel⟩
      · simp only [extraDependenciesFS, if_neg hs]
        exact ih p _ ⟨e, hmem, hename, hesel⟩

/-- Every template write of the expansion loop targets a key of the form
`pathJoin p x` with `x` at least 10 characters, so any key of at most 10
characters — in particular the bare relative name `esbuild.js` — is left
untouched. -/
theorem extraDependenciesFS_lookup_outside :
    ∀ (deps : List Dependency) (p y : String) (fs : FS), p ≠ "" → y.length ≤ 10 →
      (extraDependenciesFS p deps fs).lookupFile y = fs.lookupFile y := by
  intro deps
  induction deps with
  | nil => intro p y fs _ _; rfl
  | cons d ds ih =>
    intro p y fs hp hy
    have hpos := length_pos_of_ne_empty hp
    by_cases hs : d.selected
    · simp only [extraDependenciesFS, if_pos hs]
      rw [ih p y _ hp hy]
      have h3 : ∀ fsx : FS,
          (if d.name = "tailwindcss" then
              fsx.writeFile (pathJoin p "tailwind.config.js") TailwindConfigJs
            else fsx).lookupFile y = fsx.lookupFile y := by
        intro fsx
        split
        · exact lookup_writeFile_ne _ _ (pathJoin_ne_of_length hp
            (by have : ("tailwind.config.js").length = 18 := rfl; omega))
        · rfl
      have h2 : ∀ fsx : FS,
          (if d.name = "esbuild" then fsx.writeFile (pathJoin p "esbuild.js") EsbuildJs
            else fsx).lookupFile y = fsx.lookupFile y := by
        intro fsx
        split
        · exact lookup_writeFile_ne _ _ (pathJoin_ne_of_length hp
            (by have : ("esbuild.js").length = 10 := rfl; omega))
        · rfl
      have h1 : ∀ fsx : FS,
          (if d.name = "typescript" then
              fsx.writeFile (pathJoin p "src/index.ts") IndexTs
            else fsx).lookupFile y = fsx.lookupFile y := by
        intro fsx
        split
        · exact lookup_writeFile_ne _ _ (pathJoin_ne_of_length hp
            (by have : ("src/index.ts").length = 12 := rfl; omega))
        · rfl
      rw [h3 _, h2 _, h1 _]
    · simp only [extraDependenciesFS, if_neg hs]
      exact ih p y fs hp hy

/-- Counterexample to C10 as stated: initializing project `demo` in
`/home/user` with the seed selection (where `esbuild` is deselected), the
project root holds no `esbuild.js` at all — in particular its content does
not equal the lint-config template — because `setupProject` joins the
template names with the still-empty `m.projectPath` and so writes the
lint-config bytes at the bare relative name `esbuild.js`, the process
working directory. -/
theorem esbuild_js_counterexample :
    (setupProjectFS "/home/user" "demo" "" {}).2 = .ok (pathJoin "/home/user" "demo") ∧
    (extraDependenciesFS (pathJoin "/home/user" "demo") seedTsReactSelected
          (setupProjectFS "/home/user" "demo" "" {}).1).lookupFile
        (pathJoin (pathJoin "/home/user" "demo") "esbuild.js") = none ∧
    (extraDependenciesFS (pathJoin "/home/user" "demo") seedTsReactSelected
          (setupProjectFS "/home/user" "demo" "" {}).1).lookupFile
        (pathJoin (pathJoin "/home/user" "demo") "esbuild.js")
      ≠ some EslintConfigJs ∧
    (extraDependenciesFS (pathJoin "/home/user" "demo") seedTsReactSelected
          (setupProjectFS "/home/user" "demo" "" {}).1).lookupFile "esbuild.js"
      = some EslintConfigJs := by
  have hnone : (extraDependenciesFS (pathJoin "/home/user" "demo") seedTsReactSelected
        (setupProjectFS "/home/user" "demo" "" {}).1).lookupFile
      (pathJoin (pathJoin "/home/user" "demo") "esbuild.js") = none := by decide
  refine ⟨rfl, hnone, ?_, by decide⟩
  rw [hnone]
  intro hc
  exact Option.noConfusion hc

/-- C10 (amended): `setupProject` copies the lint-config blob under both
the `eslintrc.cjs` and `esbuild.js` names, but joins them with the model's
still-empty `projectPath`, so both copies land at their bare relative
names — the process working directory — and not in the project root; the
bundler-config bytes `EsbuildJs` reach the project-root `esbuild.js`
exactly when the `esbuild` dependency is selected at expansion (as that
file's first content, not an overwrite); with `esbuild` deselected the
project root's `esbuild.js` entry stays exactly as it was before the run,
while the working-directory `esbuild.js` holds the lint-config template
content. -/
theorem esbuild_js_locations :
    ∀ (cwd name : String) (fs : FS) (deps : List Dependency),
      cwd ≠ "" →
      fs.pathExists (pathJoin cwd name) = false →
      (setupProjectFS cwd name "" fs).2 = .ok (pathJoin cwd name) ∧
      (setupProjectFS cwd name "" fs).1.lookupFile "esbuild.js"
        = some EslintConfigJs ∧
      (setupProjectFS cwd name "" fs).1.lookupFile "eslintrc.cjs"
        = some EslintConfigJs ∧
      ((∀ d ∈ deps, d.name = "esbuild" → d.selected = false) →
        (extraDependenciesFS (pathJoin cwd name) deps
              (setupProjectFS cwd name "" fs).1).lookupFile "esbuild.js"
          = some EslintConfigJs ∧
        (extraDependenciesFS (pathJoin cwd name) deps
              (setupProjectFS cwd name "" fs).1).lookupFile
            (pathJoin (pathJoin cwd name) "esbuild.js")
          = fs.lookupFile (pathJoin (pathJoin cwd name) "esbuild.js")) ∧
      ((∃ d ∈ deps, d.name = "esbuild" ∧ d.selected = true) →
        (extraDependenciesFS (pathJoin cwd name) deps
              (setupProjectFS cwd name "" fs).1).lookupFile
            (pathJoin (pathJoin cwd name) "esbuild.js")
          = some EsbuildJs) := by
  intro cwd name fs deps hcwd hconf
  have hP : pathJoin cwd name ≠ "" := pathJoin_ne_empty name hcwd
  have hPlen : 2 ≤ (pathJoin cwd name).length := by
    rw [pathJoin_length hcwd]
    have := length_pos_of_ne_empty hcwd
    omega
  have hsetup : setupProjectFS cwd name "" fs
      = (((((fs.mkdirAll
                [pathJoin cwd name, pathJoin (pathJoin cwd name) "src"]).writeFile
              (pathJoin (pathJoin cwd name) "package.json") (packageJsonText name)).writeFile
              (pathJoin (pathJoin cwd name) "tsconfig.json") tsconfigJsonText).writeFile
              "eslintrc.cjs" EslintConfigJs).writeFile
              "esbuild.js" EslintConfigJs,
         .ok (pathJoin cwd name)) := by
    unfold setupProjectFS getProjectPath
    simp only [hconf, Bool.false_eq_true, if_false]
    rfl
  have htarget : pathJoin (pathJoin cwd name) "esbuild.js" ≠ "esbuild.js" :=
    pathJoin_ne_of_length hP (by have : ("esbuild.js").length = 10 := rfl; omega)
  have hsetupRoot : (setupProjectFS cwd name "" fs).1.lookupFile
      (pathJoin (pathJoin cwd name) "esbuild.js")
      = fs.lookupFile (pathJoin (pathJoin cwd name) "esbuild.js") := by
    rw [hsetup]
    rw [lookup_writeFile_ne _ _ (fun hc => htarget hc.symm)]
    rw [lookup_writeFile_ne _ _ (fun hc =>
      absurd (congrArg String.length hc.symm)
        (by rw [pathJoin_length hP]
            have h1 : ("esbuild.js").length = 10 := rfl
            have h2 : ("eslintrc.cjs").length = 12 := rfl
            omega))]
    rw [lookup_writeFile_ne _ _ (fun hc =>
      absurd (pathJoin_inj_right hc) (by decide))]
    rw [lookup_writeFile_ne _ _ (fun hc =>
      absurd (pathJoin_inj_right hc) (by decide))]
    rfl
  refine ⟨by rw [hsetup], ?_, ?_, ?_, ?_⟩
  · rw [hsetup]
    exact lookup_writeFile_same _ _ _
  · rw [hsetup]
    rw [lookup_writeFile_ne _ _ (by decide : ¬("esbuild.js" : String) = "eslintrc.cjs")]
    exact lookup_writeFile_same _ _ _
  · intro hsel
    constructor
    · rw [extraDependenciesFS_lookup_outside deps _ _ _ hP (by decide), hsetup]
      exact lookup_writeFile_same _ _ _
    · rw [extraDependenciesFS_esbuild_lookup deps _ _ hsel]
      exact hsetupRoot
  · intro hex
    exact extraDependenciesFS_esbuild_selected deps _ _ hex

/-- Witness for C10: project `demo` on a fresh filesystem with the seed
selection, in which `esbuild` is deselected. -/
theorem esbuild_js_locations_witness :
    (setupProjectFS "/home/user" "demo" "" {}).2 = .ok (pathJoin "/home/user" "demo") ∧
    (setupProjectFS "/home/user" "demo" "" {}).1.lookupFile "esbuild.js"
      = some EslintConfigJs ∧
    (extraDependenciesFS (pathJoin "/home/user" "demo") seedTsReactSelected
          (setupProjectFS "/home/user" "demo" "" {}).1).lookupFile
        (pathJoin (pathJoin "/home/user" "demo") "esbuild.js")
      = FS.lookupFile {} (pathJoin (pathJoin "/home/user" "demo") "esbuild.js") := by
  have h := esbuild_js_locations "/home/user" "demo" {} seedTsReactSelected
    (by decide) (by decide)
  exact ⟨h.1, h.2.1, (h.2.2.2.1 (by decide)).2⟩

/-! ### JSON decoding of the audit document and `runAudit`

`runAudit` feeds captured process output to `encoding/json`'s `Unmarshal`
targeting the `npmAuditJSON` struct.  The embedding implements a JSON
reader with the behaviour `Unmarshal` shows on this struct: missing fields
and `null` leave zero values, unknown fields are ignored, a type mismatch
or malformed document is an error, and trailing data after the top-level
value is an error.  (Simplifications that no claim touches: `\u` string
escapes and float syntax are not read — a float into an `int` field is an
`Unmarshal` error anyway — and for duplicate keys the first occurrence
wins rather than the last.) -/

/-- A parsed JSON value. -/
inductive Json where
  | jnull
  | jbool (b : Bool)
  | jnum (n : Int)
  | jstr (s : String)
  | jarr (elems : List Json)
  | jobj (fields : List (String × Json))

/-- Skip JSON whitespace. -/
def skipWs : List Char → List Char
  | c :: cs => if c = ' ' ∨ c = '\n' ∨ c = '\t' ∨ c = '\r' then skipWs cs else c :: cs
  | [] => []

/-- Read a run of decimal digits into an accumulator. -/
def readDigits (acc : Nat) : List Char → Nat × List Char
  | c :: cs => if c.isDigit then readDigits (acc * 10 + (c.toNat - 48)) cs else (acc, c :: cs)
  | [] => (acc, [])

/-- Read an integer JSON number (optional leading minus, then digits). -/
def readNumber : List Char → Option (Int × List Char)
  | '-' :: rest =>
    match rest with
    | c :: _ =>
      if c.isDigit then
        match readDigits 0 rest with
        | (n, rest2) => some (-(n : Int), rest2)
      else none
    | [] => none
  | c :: cs =>
    if c.isDigit then
      match readDigits 0 (c :: cs) with
      | (n, rest2) => some ((n : Int), rest2)
    else none
  | [] => none

/-- Read the body of a string literal after its opening quote, returning
the decoded characters and the input after the closing quote. -/
def readStringBody : List Char → Option (List Char × List Char)
  | '"' :: rest => some ([], rest)
  | '\\' :: c :: rest =>
    match readStringBody rest with
    | some (acc, rest2) =>
      let decoded := if c = 'n' then '\n' else if c = 't' then '\t'
        else if c = 'r' then '\r' else c
      some (decoded :: acc, rest2)
    | none => none
  | c :: rest =>
    if c = '"' ∨ c = '\\' then none
    else
      match readStringBody rest with
      | some (acc, rest2) => some (c :: acc, rest2)
      | none => none
  | [] => none

mutual

/-- Read one JSON value (fuelled recursion; the fuel bounds nesting and is
ample at one unit per input character). -/
def readValue : Nat → List Char → Option (Json × List Char)
  | 0, _ => none
  | fuel + 1, cs =>
    match skipWs cs with
    | [] => none
    | c :: rest =>
      if c = '"' then
        match readStringBody rest with
        | some (acc, rest2) => some (.jstr ⟨acc⟩, rest2)
        | none => none
      else if c = '{' then readFields fuel true rest
      else if c = '[' then readElems fuel true rest
      else if c = 't' then
        match rest with
        | 'r' :: 'u' :: 'e' :: rest2 => some (.jbool true, rest2)
        | _ => none
      else if c = 'f' then
        match rest with
        | 'a' :: 'l' :: 's' :: 'e' :: rest2 => some (.jbool false, rest2)
        | _ => none
      else if c = 'n' then
        match rest with
        | 'u' :: 'l' :: 'l' :: rest2 => some (.jnull, rest2)
        | _ => none
      else
        match readNumber (c :: rest) with
        | some (n, rest2) => some (.jnum n, rest2)
        | none => none

/-- Read the members of an object after its opening brace (`allowEnd` is
true when a closing brace may come next, i.e. at the start and never after
a comma). -/
def readFields : Nat → Bool → List Char → Option (Json × List Char)
  | 0, _, _ => none
  | fuel + 1, allowEnd, cs =>
    match skipWs cs with
    | '}' :: rest => if allowEnd then some (.jobj [], rest) else none
    | '"' :: rest =>
      match readStringBody rest with
      | none => none
      | some (key, rest2) =>
        match skipWs rest2 with
        | ':' :: rest3 =>
          match readValue fuel rest3 with
          | none => none
          | some (v, rest4) =>
            match skipWs rest4 with
            | ',' :: rest5 =>
              match readFields fuel false rest5 with
              | some (.jobj fields, rest6) => some (.jobj ((⟨key⟩, v) :: fields), rest6)
              | _ => none
            | '}' :: rest5 => some (.jobj [(⟨key⟩, v)], rest5)
            | _ => none
        | _ => none
    | _ => none

/-- Read the elements of an array after its opening bracket. -/
def readElems : Nat → Bool → List Char → Option (Json × List Char)
  | 0, _, _ => none
  | fuel + 1, allowEnd, cs =>
    match skipWs cs with
    | ']' :: rest => if allowEnd then some (.jarr [], rest) else none
    | cs1 =>
      match readValue fuel cs1 with
      | none => none
      | some (v, rest) =>
        match skipWs rest with
        | ',' :: rest2 =>
          match readElems fuel false rest2 with
          | some (.jarr elems, rest3) => some (.jarr (v :: elems), rest3)
          | _ => none
        | ']' :: rest2 => some (.jarr [v], rest2)
        | _ => none

end

/-- Parse a whole input as one JSON value with nothing but whitespace after
it (as `json.Unmarshal` requires). -/
def parseJson (s : String) : Option Json :=
  match readValue (s.length + 1) s.data with
  | some (v, rest) =>
    match skipWs rest with
    | [] => some v
    | _ => none
  | none => none

/-- Object member lookup. -/
def getField (fields : List (String × Json)) (key : String) : Option Json :=
  match fields.find? (fun e => decide (e.1 = key)) with
  | some e => some e.2
  | none => none

/-- `Unmarshal` of a member into an `int` field: absent or `null` leaves
zero, a number is taken, anything else is an error. -/
def asInt : Option Json → Option Int
  | none => some 0
  | some (.jnum n) => some n
  | some .jnull => some 0
  | some _ => none

/-- `Unmarshal` of a member into a nested struct: absent or `null` leaves
the zero struct, an object provides members, anything else is an error. -/
def asObjFields : Option Json → Option (List (String × Json))
  | none => some []
  | some (.jobj fs) => some fs
  | some .jnull => some []
  | some _ => none

/-- Decode a captured output text as the `npmAuditJSON` document. -/
def decodeAudit (s : String) : Option npmAuditJSON :=
  match parseJson s with
  | none => none
  | some v =>
  match (match v with
         | .jobj fs => some fs
         | .jnull => some []
         | _ => none : Option (List (String × Json))) with
  | none => none
  | some topFields =>
  match asObjFields (getField topFields "metadata") with
  | none => none
  | some metaFields =>
  match asObjFields (getField metaFields "vulnerabilities"),
        asObjFields (getField metaFields "dependencies") with
  | some vulnFields, some depFields =>
    match asInt (getField vulnFields "info"), asInt (getField vulnFields "low"),
          asInt (getField vulnFields "moderate"), asInt (getField vulnFields "high"),
          asInt (getField vulnFields "critical"), asInt (getField vulnFields "total"),
          asInt (getField depFields "prod"), asInt (getField depFields "dev"),
          asInt (getField depFields "optional"), asInt (getField depFields "peer"),
          asInt (getField depFields "peerOptional"), asInt (getField depFields "total") with
    | some info, some low, some moderate, some high, some critical, some total,
      some prod, some dev, some optional, some peer, some peerOptional, some depTotal =>
      some { metadata :=
        { vulnerabilities :=
          { info := info, low := low, moderate := moderate, high := high,
            critical := critical, total := total },
          dependencies :=
          { prod := prod, dev := dev, optional := optional, peer := peer,
            peerOptional := peerOptional, total := depTotal } } }
    | _, _, _, _, _, _, _, _, _, _, _, _ => none
  | _, _ => none

/-- The outcome of `execOutput`: whether `cmd.Run` reported success, plus
the captured stdout and stderr texts. -/
structure ExecResult where
  ok     : Bool
  stdout : String
  stderr : String := ""
deriving DecidableEq, Repr

/-- The message `runAudit` returns into the event loop. -/
inductive AuditOutcome where
  | auditMsg (audit : npmAuditJSON)
  | errorMsg
deriving DecidableEq, Repr

/-- `runAudit` from the source: run `npm audit --json`; when the command
reports failure (npm exits nonzero when vulnerabilities are found), first
try to decode the stdout text captured on that failure path, and only
surface the fatal error if that decode also fails; when the command
succeeds, decode the success-path stdout, failing fatally if it does not
decode. -/
def runAudit (res : ExecResult) : AuditOutcome :=
  if res.ok then
    match decodeAudit res.stdout with
    | some audit => .auditMsg audit
    | none => .errorMsg
  else
    match decodeAudit res.stdout with
    | some audit => .auditMsg audit
    | none => .errorMsg

/-- The literal audit document of the spec (braces as `\x7b`/`\x7d`). -/
def auditLiteral : String :=
  "\x7b\"metadata\":\x7b\"vulnerabilities\":\x7b\"info\":0,\"low\":0,\"moderate\":1,\"high\":0,\"critical\":0,\"total\":1\x7d,\"dependencies\":\x7b\"prod\":2,\"dev\":3,\"optional\":0,\"peer\":0,\"peerOptional\":0,\"total\":5\x7d\x7d\x7d"

/-- The `npmAuditJSON` value the literal document denotes. -/
def auditLiteralReport : npmAuditJSON :=
  { metadata :=
    { vulnerabilities :=
      { info := 0, low := 0, moderate := 1, high := 0, critical := 0, total := 1 },
      dependencies :=
      { prod := 2, dev := 3, optional := 0, peer := 0, peerOptional := 0, total := 5 } } }

set_option maxRecDepth 20000 in
/-- C4: `runAudit` surfaces a fatal error if and only if the command failed
and its captured failure-path stdout does not decode as the structured
audit document, or the command succeeded and the success-path stdout does
not decode; and feeding the literal audit document through either path
yields identical outcomes, the expected `npmAuditJSON` value, and the
Moderate severity classification. -/
theorem runAudit_fatal_iff :
    (∀ r : ExecResult, runAudit r = .errorMsg ↔
      ((r.ok = false ∧ decodeAudit r.stdout = none) ∨
       (r.ok = true ∧ decodeAudit r.stdout = none))) ∧
    runAudit { ok := true, stdout := auditLiteral }
      = runAudit { ok := false, stdout := auditLiteral, stderr := "exit status 1" } ∧
    runAudit { ok := true, stdout := auditLiteral } = .auditMsg auditLiteralReport ∧
    severityStatus auditLiteralReport = "Severity: Moderate " := by
  have hlit : decodeAudit auditLiteral = some auditLiteralReport := rfl
  refine ⟨?_, ?_, ?_, rfl⟩
  · intro r
    by_cases hok : r.ok
    · cases hdec : decodeAudit r.stdout with
      | none => simp [runAudit, hok, hdec]
      | some a => simp [runAudit, hok, hdec]
    · cases hdec : decodeAudit r.stdout with
      | none => simp [runAudit, hok, hdec]
      | some a => simp [runAudit, hok, hdec]
  · simp [runAudit, hlit]
  · simp [runAudit, hlit]

/-! ### Process exit behaviour of `main` -/

/-- Which process stream a text is printed to. -/
inductive StdStream where
  | standardOut | standardErr
deriving DecidableEq, Repr

/-- The result of `program.Run()`: either the final model — the program
quit normally, which covers the final summary, the explicit cancel keys,
and the fatal-error path, since the `ErrorMsg` handler records the error in
the model and returns `tea.Quit` — or an error of the terminal-program
machinery itself. -/
inductive RunResult where
  | ok (final : Model)
  | runtimeError (e : String)

/-- The exit code of `main`: `os.Exit(1)` only when `program.Run` returns
an error; otherwise `main` falls through and the process exits `0`. -/
def mainExitCode : RunResult → Nat
  | .ok _ => 0
  | .runtimeError _ => 1

/-- What `main` prints before a nonzero exit: `fmt.Println(err)`, which
writes to standard output. -/
def mainErrorPrint : RunResult → Option (String × StdStream)
  | .ok _ => none
  | .runtimeError e => some (e, .standardOut)

/-- Counterexample to C3 as stated: the error accompanying exit code 1 is
printed to standard output (`fmt.Println`), not standard error; moreover an
in-app fatal error (`ErrorMsg`) records the error string and returns
`tea.Quit`, so the program run ends without a `Run` error and the process
exits 0, not 1. -/
theorem exit_code_counterexample :
    mainErrorPrint (.runtimeError "boom") = some ("boom", .standardOut) ∧
    mainErrorPrint (.runtimeError "boom") ≠ some ("boom", .standardErr) ∧
    (update initialModel (.errorMsg "boom")).2 = Cmd.quit ∧
    (update initialModel (.errorMsg "boom")).1.error = "boom" ∧
    mainExitCode (.ok (update initialModel (.errorMsg "boom")).1) = 0 := by
  refine ⟨rfl, ?_, rfl, rfl, rfl⟩
  intro h
  simp [mainErrorPrint] at h

/-- C3 (amended): the process exits 0 whenever the program run ends
normally — after the final summary, on explicit cancel, and also on an
in-app fatal error, which the `ErrorMsg` handler records in the model
(rendered by the error view) before quitting; exit code 1 occurs exactly
when `program.Run` itself returns an error, and that error is printed to
standard output, not standard error, before the exit. -/
theorem exit_codes :
    (∀ m : Model, mainExitCode (.ok m) = 0) ∧
    (∀ e : String, mainExitCode (.runtimeError e) = 1 ∧
      mainErrorPrint (.runtimeError e) = some (e, .standardOut)) ∧
    (∀ (m : Model) (e : String),
      (update m (.errorMsg e)).2 = Cmd.quit ∧ (update m (.errorMsg e)).1.error = e) ∧
    (∀ m : Model, (update m (.key KeyEv.esc)).2 = Cmd.quit) ∧
    (∀ (m : Model) (a : npmAuditJSON), (update m (.auditMsg a)).2 = Cmd.quit) :=
  ⟨fun _ => rfl, fun _ => ⟨rfl, rfl⟩, fun _ _ => ⟨rfl, rfl⟩, fun _ => rfl, fun _ _ => rfl⟩

end Npminit
